import Mathlib

/-!
Shallow embedding of `chirp/drivers/bf_t1.py` (Baofeng BF-T1 driver): the
clone-protocol helpers (`_clean_buffer`, `_start_clone_mode`, `_recv`,
`_upload`) and the bit/BCD-level channel and settings codec
(`get_memory`, `set_memory`, `_decode_tone`, `_encode_tone`, volume and
FM-VFO handling in `get_settings`/`set_settings`), together with theorems
about round-trips, framing, upload bounds and mutation footprints.

A memory image is a list of byte values; channel records are 16-byte
slices laid out as in the driver's `MEM_FORMAT` bitwise description:
`lbcd rxfreq[4]; u8 rxtone; lbcd txoffset[4]; u8 txtone;` one packed flag
byte (bits, most significant first: noskip, wide, ttondinv, unA,
rtondinv, unB, offplus, offminus) and five unused bytes.
-/

/-- Two-digit packed-BCD encoding of `d` (one `lbcd` byte as written by
the bitwise codec): high nibble is the tens digit, low nibble the ones
digit. -/
def bcdByte (d : Nat) : Nat := d / 10 * 16 + d % 10

/-- Integer value of a two-digit packed-BCD byte. -/
def bcdVal (b : Nat) : Nat := b / 16 * 10 + b % 16

/-- Value of a 4-byte little-endian BCD field (`lbcd x[4]`), as computed
by `int(...)` on the bitwise view: byte 0 holds the two least significant
decimal digits. -/
def lbcdVal4 (a0 a1 a2 a3 : Nat) : Nat :=
  bcdVal a0 + 100 * bcdVal a1 + 10000 * bcdVal a2 + 1000000 * bcdVal a3

/-- Bit `i` of byte `b` (bit 0 is least significant). -/
def bitGet (b i : Nat) : Nat := b / 2 ^ i % 2

/-- Byte `b` with bit `i` replaced by `v` (`v ≤ 1`): a 1-bit bitfield
assignment on the bitwise view. -/
def bitSet (b i v : Nat) : Nat := (b / 2 ^ (i + 1) * 2 + v) * 2 ^ i + b % 2 ^ i

theorem bcdVal_bcdByte (d : Nat) : bcdVal (bcdByte d) = d := by
  unfold bcdVal bcdByte
  omega

theorem bcdByte_lt (d : Nat) (h : d < 100) : bcdByte d < 255 := by
  unfold bcdByte
  omega

theorem lbcd4_roundtrip (n : Nat) (h : n < 100000000) :
    lbcdVal4 (bcdByte (n % 100)) (bcdByte (n / 100 % 100))
      (bcdByte (n / 10000 % 100)) (bcdByte (n / 1000000 % 100)) = n := by
  simp only [lbcdVal4, bcdVal_bcdByte]
  omega

theorem bitGet_bitSet_self (b i v : Nat) (hv : v ≤ 1) :
    bitGet (bitSet b i v) i = v := by
  have hp : 0 < 2 ^ i := pow_pos (by norm_num) i
  unfold bitGet bitSet
  rw [Nat.add_comm, Nat.add_mul_div_right _ _ hp,
    Nat.div_eq_of_lt (Nat.mod_lt b hp), Nat.zero_add]
  generalize b / 2 ^ (i + 1) = x
  omega

theorem bitGet_bitSet_ne (b i j v : Nat) (hv : v ≤ 1) (hne : j ≠ i) :
    bitGet (bitSet b i v) j = bitGet b j := by
  rcases Nat.lt_or_ge j i with hj | hj
  · -- reading strictly below the written bit
    unfold bitGet bitSet
    have hi : 2 ^ i = 2 ^ j * 2 ^ (i - j) := by
      rw [← pow_add]
      congr 1
      omega
    rw [hi]
    have h1 : (b / 2 ^ (i + 1) * 2 + v) * (2 ^ j * 2 ^ (i - j)) + b % (2 ^ j * 2 ^ (i - j))
        = b % (2 ^ j * 2 ^ (i - j)) + (b / 2 ^ (i + 1) * 2 + v) * 2 ^ (i - j) * 2 ^ j := by
      ring
    rw [h1, Nat.add_mul_div_right _ _ (pow_pos (by norm_num) j),
      Nat.mod_mul_right_div_self]
    obtain ⟨k, hk⟩ : ∃ k, i - j = k + 1 := ⟨i - j - 1, by omega⟩
    rw [hk, pow_succ,
      show (b / 2 ^ (i + 1) * 2 + v) * (2 ^ k * 2) = (b / 2 ^ (i + 1) * 2 + v) * 2 ^ k * 2 from by
        ring,
      Nat.add_mul_mod_self_right]
    exact Nat.mod_mod_of_dvd _ ⟨2 ^ k, by ring⟩
  · -- reading strictly above the written bit
    have hij : i + 1 ≤ j := by omega
    unfold bitGet bitSet
    have hp : 0 < 2 ^ (i + 1) := pow_pos (by norm_num) (i + 1)
    have hN : ((b / 2 ^ (i + 1) * 2 + v) * 2 ^ i + b % 2 ^ i) / 2 ^ (i + 1) = b / 2 ^ (i + 1) := by
      have hb : b % 2 ^ i < 2 ^ i := Nat.mod_lt b (pow_pos (by norm_num) i)
      have hsmall : v * 2 ^ i + b % 2 ^ i < 2 ^ (i + 1) := by
        rw [pow_succ]
        interval_cases v <;> omega
      rw [show (b / 2 ^ (i + 1) * 2 + v) * 2 ^ i + b % 2 ^ i
          = (v * 2 ^ i + b % 2 ^ i) + b / 2 ^ (i + 1) * 2 ^ (i + 1) from by rw [pow_succ]; ring,
        Nat.add_mul_div_right _ _ hp, Nat.div_eq_of_lt hsmall, Nat.zero_add]
    rw [show 2 ^ j = 2 ^ (i + 1) * 2 ^ (j - (i + 1)) from by rw [← pow_add]; congr 1; omega,
      ← Nat.div_div_eq_div_mul, hN, Nat.div_div_eq_div_mul, ← pow_add,
      show i + 1 + (j - (i + 1)) = j from by omega]

theorem bitGet_le_one (b i : Nat) : bitGet b i ≤ 1 := by
  unfold bitGet
  omega

/-! ## Fixed tone tables and UI value lists -/

/-- Modelled from the spec: `chirp_common.TONES` (module not under
`src/`), the fixed table of the 50 standard analog CTCSS tones, here in
tenths of Hz so that values stay integral. -/
def TONES : List Nat :=
  [670, 693, 719, 744, 770, 797, 825, 854, 885, 915, 948, 974, 1000, 1035,
   1072, 1109, 1148, 1188, 1230, 1273, 1318, 1365, 1413, 1462, 1514, 1567,
   1598, 1622, 1655, 1679, 1713, 1738, 1773, 1799, 1835, 1862, 1899, 1928,
   1966, 1995, 2035, 2065, 2107, 2181, 2257, 2291, 2336, 2418, 2503, 2541]

/-- Modelled from the spec: `DTCS = tuple(sorted(chirp_common.DTCS_CODES +
(645,)))`, the fixed table of digital tone codes (105 entries; the
driver adds 645 to the 104 standard codes). -/
def DTCS : List Nat :=
  [23, 25, 26, 31, 32, 36, 43, 47, 51, 53, 54, 65, 71, 72, 73, 74, 114, 115,
   116, 122, 125, 131, 132, 134, 143, 145, 152, 155, 156, 162, 165, 172, 174,
   205, 212, 223, 225, 226, 243, 244, 245, 246, 251, 252, 255, 261, 263, 265,
   266, 271, 274, 306, 311, 315, 325, 331, 332, 343, 346, 351, 356, 364, 365,
   371, 411, 412, 413, 423, 431, 432, 445, 446, 452, 454, 455, 462, 464, 465,
   466, 503, 506, 516, 523, 526, 532, 546, 565, 606, 612, 624, 627, 631, 632,
   645, 654, 662, 664, 703, 712, 723, 731, 732, 734, 743, 754]

/-- `MODES = ["NFM", "FM"]`: index = the `wide` flag bit. -/
def MODES : List String := ["NFM", "FM"]

/-- `SKIP_VALUES = ["S", ""]`: index = the `noskip` flag bit. -/
def SKIP_VALUES : List String := ["S", ""]

/-- Python `list.index`: position of the first occurrence (the driver
only calls it on members; on a non-member Python raises, which the
callers model separately). -/
def listIdx {α : Type} [DecidableEq α] : List α → α → Nat
  | [], _ => 0
  | a :: rest, x => if a = x then 0 else listIdx rest x + 1

theorem listIdx_lt_length {α : Type} [DecidableEq α] (l : List α) (x : α) (h : x ∈ l) :
    listIdx l x < l.length := by
  induction l with
  | nil => cases h
  | cons a rest ih =>
    by_cases hax : a = x
    · simp [listIdx, hax]
    · rcases List.mem_cons.mp h with h | h
      · exact absurd h.symm hax
      · simp only [listIdx, if_neg hax, List.length_cons]
        exact Nat.succ_lt_succ (ih h)

theorem getD_listIdx {α : Type} [DecidableEq α] (l : List α) (x d : α) (h : x ∈ l) :
    l.getD (listIdx l x) d = x := by
  induction l with
  | nil => cases h
  | cons a rest ih =>
    by_cases hax : a = x
    · simp [listIdx, hax]
    · rcases List.mem_cons.mp h with h | h
      · exact absurd h.symm hax
      · simpa [listIdx, if_neg hax] using ih h

theorem getElem?_listIdx {α : Type} [DecidableEq α] (l : List α) (x d : α) (h : x ∈ l) :
    (l[listIdx l x]?).getD d = x := by
  rw [← List.getD_eq_getElem?_getD]
  exact getD_listIdx l x d h

/-! ## Errors and tone codec -/

/-- The failure modes the modelled functions can raise (each corresponds
to one `errors.RadioError` / `errors.InvalidDataError` / `ValueError`
raise site in the driver; address-carrying constructors mirror messages
formatted with the failing address). -/
inductive RErr where
  | blockShort (addr : Nat)
  | blockLong (addr : Nat)
  | badHeader (addr : Nat)
  | readFail
  | badAckWrite (addr : Nat)
  | dirtySerial
  | toneUnsupported (t : Nat)
  | invalidData
  | valueErr
deriving DecidableEq, Repr

/-- A `(mode, value, polarity)` tone triple, the exchange format between
the driver's tone codec and `chirp_common.split_tone_encode` /
`split_tone_decode` (external collaborators). Analog tone values are in
tenths of Hz, digital values are DCS codes. -/
structure ToneSel where
  mode : String
  val : Option Nat
  pol : Option String
deriving DecidableEq, Repr

/-- `BFT1._decode_tone`: tone byte plus inversion bit to a triple. -/
def decode_tone (val inv : Nat) : ToneSel :=
  if val = 0 then ⟨"", none, none⟩
  else if val < 51 then ⟨"Tone", some (TONES.getD (val - 1) 0), none⟩
  else ⟨"DTCS", some (DTCS.getD (val - 51) 0), some (if inv = 1 then "R" else "N")⟩

/-- `BFT1._encode_tone`: triple to (tone byte, inversion bit); tone
values absent from the fixed tables fail, and both cells of one tone are
written together or not at all (the table lookup happens before either
`set_value` call). -/
def encode_tone (t : ToneSel) : Except RErr (Nat × Nat) :=
  if t.mode = "" then .ok (0, 0)
  else if t.mode = "Tone" then
    match t.val with
    | some x =>
      if x ∈ TONES then .ok (listIdx TONES x + 1, 0) else .error (.toneUnsupported x)
    | none => .error (.toneUnsupported 0)
  else if t.mode = "DTCS" then
    match t.val with
    | some x =>
      if x ∈ DTCS then .ok (listIdx DTCS x + 51, if t.pol = some "R" then 1 else 0)
      else .error (.toneUnsupported x)
    | none => .error (.toneUnsupported 0)
  else .error .invalidData

/-- The triples `split_tone_encode` can hand to `_encode_tone` that the
fixed tables accept: no tone, an analog tone from `TONES` (polarity
unused), or a digital code from `DTCS` with a normal/reverse polarity. -/
def validToneSel (t : ToneSel) : Prop :=
  t = ⟨"", none, none⟩ ∨
  (t.mode = "Tone" ∧ t.pol = none ∧ ∃ x ∈ TONES, t.val = some x) ∨
  (t.mode = "DTCS" ∧ (t.pol = some "N" ∨ t.pol = some "R") ∧ ∃ x ∈ DTCS, t.val = some x)

theorem encode_tone_roundtrip (t : ToneSel) (hv : validToneSel t) :
    ∃ tb ti, encode_tone t = .ok (tb, ti) ∧ ti ≤ 1 ∧ decode_tone tb ti = t := by
  rcases hv with h | ⟨hm, hp, x, hx, hval⟩ | ⟨hm, hp, x, hx, hval⟩
  · subst h
    exact ⟨0, 0, rfl, by omega, rfl⟩
  · obtain ⟨m, v, p⟩ := t
    simp only at hm hp hval
    subst hm; subst hp; subst hval
    refine ⟨listIdx TONES x + 1, 0, ?_, by omega, ?_⟩
    · simp [encode_tone, hx]
    · have hlt : listIdx TONES x < TONES.length := listIdx_lt_length _ _ hx
      have hlen : TONES.length = 50 := by rfl
      simp only [decode_tone, if_neg (by omega : ¬listIdx TONES x + 1 = 0),
        if_pos (by omega : listIdx TONES x + 1 < 51), Nat.add_sub_cancel]
      rw [getD_listIdx _ _ _ hx]
  · obtain ⟨m, v, p⟩ := t
    simp only at hm hp hval
    subst hm; subst hval
    refine ⟨listIdx DTCS x + 51, if p = some "R" then 1 else 0, ?_, ?_, ?_⟩
    · simp [encode_tone, hx]
    · split <;> omega
    · simp only [decode_tone, if_neg (by omega : ¬listIdx DTCS x + 51 = 0),
        if_neg (by omega : ¬listIdx DTCS x + 51 < 51), Nat.add_sub_cancel]
      rw [getD_listIdx _ _ _ hx]
      rcases hp with hp | hp <;> subst hp <;> simp

/-! ## Memory image and channel records -/

/-- A radio memory image: a sequence of byte values (2048 bytes for a
full BF-T1 image). -/
abbrev Image := List Nat

/-- Byte `i` of an image (reads past the end yield 0; the claims only
read inside the image). -/
def byteAt (img : Image) (i : Nat) : Nat := img.getD i 0

/-- The 16 bytes of one `struct channel` slice, in layout order:
`b0..b3` = `rxfreq` (lbcd), `b4` = `rxtone`, `b5..b8` = `txoffset`
(lbcd), `b9` = `txtone`, `b10` = the packed flag byte, `b11..b15` =
`empty[5]`. -/
structure ChanBytes where
  b0 : Nat
  b1 : Nat
  b2 : Nat
  b3 : Nat
  b4 : Nat
  b5 : Nat
  b6 : Nat
  b7 : Nat
  b8 : Nat
  b9 : Nat
  b10 : Nat
  b11 : Nat
  b12 : Nat
  b13 : Nat
  b14 : Nat
  b15 : Nat
deriving DecidableEq, Repr

def chanToList (c : ChanBytes) : List Nat :=
  [c.b0, c.b1, c.b2, c.b3, c.b4, c.b5, c.b6, c.b7,
   c.b8, c.b9, c.b10, c.b11, c.b12, c.b13, c.b14, c.b15]

/-- Read the 16-byte channel slice starting at `off`. -/
def readChan (img : Image) (off : Nat) : ChanBytes :=
  ⟨byteAt img off, byteAt img (off + 1), byteAt img (off + 2), byteAt img (off + 3),
   byteAt img (off + 4), byteAt img (off + 5), byteAt img (off + 6), byteAt img (off + 7),
   byteAt img (off + 8), byteAt img (off + 9), byteAt img (off + 10), byteAt img (off + 11),
   byteAt img (off + 12), byteAt img (off + 13), byteAt img (off + 14), byteAt img (off + 15)⟩

/-- Write back the 16-byte channel slice starting at `off`. -/
def writeChan (img : Image) (off : Nat) (c : ChanBytes) : Image :=
  img.take off ++ (chanToList c ++ img.drop (off + 16))

/-- Channel selector: the 1-based index 1..20 or one of the two special
channels (`_get_special`: `EMG` ↦ `emg` at 0x0000, `RLY` ↦ `rly` at
0x0170, index `n` ↦ `channels[n-1]` at 0x0010). -/
inductive Sel where
  | emg
  | rly
  | num (n : Nat)
deriving DecidableEq, Repr

def chanOffset : Sel → Nat
  | .emg => 0x0000
  | .rly => 0x0170
  | .num n => 0x0010 + (n - 1) * 16

/-- Selectors the driver accepts: numeric indices stay within
`memory_bounds = (1, 20)`. -/
def selOk : Sel → Prop
  | .num n => 1 ≤ n ∧ n ≤ 20
  | _ => True

/-- The channel value exchanged with the UI: the fields of a
`chirp_common.Memory` that `get_memory`/`set_memory` touch, with the
tone data kept as the two `(mode, value, polarity)` triples that
`split_tone_encode`/`split_tone_decode` (external) translate to and from
the unified representation. -/
structure ChanView where
  empty : Bool
  freq : Nat
  offset : Nat
  duplex : String
  mode : String
  skip : String
  txtone : ToneSel
  rxtone : ToneSel
deriving DecidableEq, Repr

/-- The fresh `chirp_common.Memory` that `get_memory` returns for an
empty record (first raw byte 0xFF): all fields at their defaults. -/
def emptyView : ChanView :=
  ⟨true, 0, 0, "", "FM", "", ⟨"", none, none⟩, ⟨"", none, none⟩⟩

/-- `BFT1.get_memory`, slice part: decode one channel record. Mirrors the
source line by line: empty test on the first raw byte, BCD frequency and
offset ×10, the sequential duplex/offset derivation (minus flag, then
plus flag, then the >71 MHz split reclassification which rewrites the
offset to an absolute tx frequency), mode and skip lookups, and the two
tone triples. -/
def decodeChan (c : ChanBytes) : ChanView :=
  if c.b0 = 255 then emptyView
  else
    let freq := lbcdVal4 c.b0 c.b1 c.b2 c.b3 * 10
    let off0 := lbcdVal4 c.b5 c.b6 c.b7 c.b8 * 10
    let dupOff : String × Nat :=
      if off0 ≠ 0 then
        let d1 := if bitGet c.b10 0 = 1 then "-" else ""
        let d2 := if bitGet c.b10 1 = 1 then "+" else d1
        if off0 > 71000000 then
          let o1 := if bitGet c.b10 0 = 1 then freq - off0 else off0
          let o2 := if bitGet c.b10 1 = 1 then freq + o1 else o1
          ("split", o2)
        else (d2, off0)
      else ("", off0)
    { empty := false
      freq := freq
      offset := dupOff.2
      duplex := dupOff.1
      mode := MODES.getD (bitGet c.b10 6) ""
      skip := SKIP_VALUES.getD (bitGet c.b10 7) ""
      txtone := decode_tone c.b9 (bitGet c.b10 5)
      rxtone := decode_tone c.b4 (bitGet c.b10 3) }

/-- The sixteen 0xFF bytes written for an empty channel. -/
def ffChan : ChanBytes :=
  ⟨255, 255, 255, 255, 255, 255, 255, 255, 255, 255, 255, 255, 255, 255, 255, 255⟩

/-- `_mem.rxfreq = n` on the bitwise view: write the 4 lbcd bytes. -/
def withRxfreq (c : ChanBytes) (n : Nat) : ChanBytes :=
  { c with
    b0 := bcdByte (n % 100)
    b1 := bcdByte (n / 100 % 100)
    b2 := bcdByte (n / 10000 % 100)
    b3 := bcdByte (n / 1000000 % 100) }

/-- `_mem.txoffset = n` on the bitwise view: write the 4 lbcd bytes. -/
def withTxoffset (c : ChanBytes) (n : Nat) : ChanBytes :=
  { c with
    b5 := bcdByte (n % 100)
    b6 := bcdByte (n / 100 % 100)
    b7 := bcdByte (n / 10000 % 100)
    b8 := bcdByte (n / 1000000 % 100) }

/-- `BFT1.set_memory`, slice part: encode one channel value field by
field in source order (frequency, offset, duplex flags — the split case
recomputes the stored offset from the absolute tx frequency — mode,
skip, tx tone, rx tone). Each field is committed as soon as it is
computed, exactly as the bitwise view does, so a failure returns the
slice as mutated so far together with the error. -/
def encodeChan (c0 : ChanBytes) (m : ChanView) : ChanBytes × Option RErr :=
  if m.empty then (ffChan, none)
  else
    let c1 := withRxfreq c0 (m.freq / 10)
    let c2 := withTxoffset c1 (m.offset / 10)
    let c3 :=
      if m.duplex = "" then { c2 with b10 := bitSet (bitSet c2.b10 1 0) 0 0 }
      else if m.duplex = "+" then { c2 with b10 := bitSet (bitSet c2.b10 1 1) 0 0 }
      else if m.duplex = "-" then { c2 with b10 := bitSet (bitSet c2.b10 1 0) 0 1 }
      else if m.duplex = "split" then
        if m.freq > m.offset then
          withTxoffset { c2 with b10 := bitSet (bitSet c2.b10 1 0) 0 1 }
            ((m.freq - m.offset) / 10)
        else
          withTxoffset { c2 with b10 := bitSet (bitSet c2.b10 1 1) 0 0 }
            ((m.offset - m.freq) / 10)
      else c2
    if m.mode ∈ MODES then
      let c4 := { c3 with b10 := bitSet c3.b10 6 (listIdx MODES m.mode) }
      if m.skip ∈ SKIP_VALUES then
        let c5 := { c4 with b10 := bitSet c4.b10 7 (listIdx SKIP_VALUES m.skip) }
        match encode_tone m.txtone with
        | .error e => (c5, some e)
        | .ok (tb, ti) =>
          let c6 := { c5 with b9 := tb, b10 := bitSet c5.b10 5 ti }
          match encode_tone m.rxtone with
          | .error e => (c6, some e)
          | .ok (rb, ri) => ({ c6 with b4 := rb, b10 := bitSet c6.b10 3 ri }, none)
      else (c4, some .valueErr)
    else (c3, some .valueErr)

/-- `BFT1.set_memory` on the image: all mutations land inside the
selected 16-byte slice; on failure the slice holds the fields written
before the failing one. -/
def set_memory (img : Image) (sel : Sel) (m : ChanView) : Image × Option RErr :=
  let r := encodeChan (readChan img (chanOffset sel)) m
  (writeChan img (chanOffset sel) r.1, r.2)

/-- One byte read from the image, returning the (unchanged) image: the
only primitive a decode pass performs on the memory map. -/
def readByteSt (i : Nat) (img : Image) : Nat × Image := (img.getD i 0, img)

/-- `BFT1.get_memory` with the image state threaded through every read
it performs (it performs no writes). -/
def get_memory_st (img : Image) (sel : Sel) : ChanView × Image :=
  let off := chanOffset sel
  let r0 := readByteSt off img
  let r1 := readByteSt (off + 1) r0.2
  let r2 := readByteSt (off + 2) r1.2
  let r3 := readByteSt (off + 3) r2.2
  let r4 := readByteSt (off + 4) r3.2
  let r5 := readByteSt (off + 5) r4.2
  let r6 := readByteSt (off + 6) r5.2
  let r7 := readByteSt (off + 7) r6.2
  let r8 := readByteSt (off + 8) r7.2
  let r9 := readByteSt (off + 9) r8.2
  let r10 := readByteSt (off + 10) r9.2
  let r11 := readByteSt (off + 11) r10.2
  let r12 := readByteSt (off + 12) r11.2
  let r13 := readByteSt (off + 13) r12.2
  let r14 := readByteSt (off + 14) r13.2
  let r15 := readByteSt (off + 15) r14.2
  (decodeChan ⟨r0.1, r1.1, r2.1, r3.1, r4.1, r5.1, r6.1, r7.1,
     r8.1, r9.1, r10.1, r11.1, r12.1, r13.1, r14.1, r15.1⟩, r15.2)

/-- The value `get_memory` hands to the UI. -/
def get_memory (img : Image) (sel : Sel) : ChanView := (get_memory_st img sel).1

theorem get_memory_eq_decode (img : Image) (sel : Sel) :
    get_memory img sel = decodeChan (readChan img (chanOffset sel)) := rfl

/-! ## Slice read/write lemmas -/

theorem byteAt_append_mid (pre mid post : List Nat) (i : Nat) (hi : i < mid.length) :
    byteAt (pre ++ (mid ++ post)) (pre.length + i) = mid.getD i 0 := by
  unfold byteAt
  rw [List.getD_eq_getElem?_getD, List.getD_eq_getElem?_getD,
    List.getElem?_append_right (Nat.le_add_right _ _), Nat.add_sub_cancel_left,
    List.getElem?_append_left hi]

theorem readChan_writeChan (img : Image) (off : Nat) (c : ChanBytes)
    (h : off + 16 ≤ img.length) :
    readChan (writeChan img off c) off = c := by
  have hp : (img.take off).length = off := by rw [List.length_take]; omega
  have key : ∀ i, i < 16 → byteAt (writeChan img off c) (off + i) = (chanToList c).getD i 0 := by
    intro i hi
    have hmid : i < (chanToList c).length := by simpa [chanToList] using hi
    have := byteAt_append_mid (img.take off) (chanToList c) (img.drop (off + 16)) i hmid
    rw [hp] at this
    exact this
  obtain ⟨b0, b1, b2, b3, b4, b5, b6, b7, b8, b9, b10, b11, b12, b13, b14, b15⟩ := c
  simp only [readChan, ChanBytes.mk.injEq]
  refine ⟨?_, ?_, ?_, ?_, ?_, ?_, ?_, ?_, ?_, ?_, ?_, ?_, ?_, ?_, ?_, ?_⟩
  · have := key 0 (by omega); simpa [chanToList] using this
  · have := key 1 (by omega); simpa [chanToList] using this
  · have := key 2 (by omega); simpa [chanToList] using this
  · have := key 3 (by omega); simpa [chanToList] using this
  · have := key 4 (by omega); simpa [chanToList] using this
  · have := key 5 (by omega); simpa [chanToList] using this
  · have := key 6 (by omega); simpa [chanToList] using this
  · have := key 7 (by omega); simpa [chanToList] using this
  · have := key 8 (by omega); simpa [chanToList] using this
  · have := key 9 (by omega); simpa [chanToList] using this
  · have := key 10 (by omega); simpa [chanToList] using this
  · have := key 11 (by omega); simpa [chanToList] using this
  · have := key 12 (by omega); simpa [chanToList] using this
  · have := key 13 (by omega); simpa [chanToList] using this
  · have := key 14 (by omega); simpa [chanToList] using this
  · have := key 15 (by omega); simpa [chanToList] using this

theorem byteAt_writeChan_outside (img : Image) (off : Nat) (c : ChanBytes) (i : Nat)
    (h : off + 16 ≤ img.length) (hi : i < off ∨ off + 16 ≤ i) :
    byteAt (writeChan img off c) i = byteAt img i := by
  have hp : (img.take off).length = off := by rw [List.length_take]; omega
  have hmid : (chanToList c).length = 16 := by simp [chanToList]
  unfold byteAt writeChan
  rw [List.getD_eq_getElem?_getD, List.getD_eq_getElem?_getD]
  rcases hi with hi | hi
  · rw [List.getElem?_append_left (by rw [hp]; exact hi), List.getElem?_take, if_pos hi]
  · rw [List.getElem?_append_right (by rw [hp]; omega),
      List.getElem?_append_right (by rw [hmid, hp]; omega),
      List.getElem?_drop]
    congr 2
    rw [hmid, hp]
    omega

/-- All six flag bits read back from the flag byte as `set_memory` leaves
it: duplex bits first (offplus = bit 1, offminus = bit 0), then wide
(bit 6), noskip (bit 7), tx tone inversion (bit 5), rx tone inversion
(bit 3). -/
theorem chainBits (B w s ti ri p q : Nat) (hw : w ≤ 1) (hs : s ≤ 1) (hti : ti ≤ 1)
    (hri : ri ≤ 1) (hp : p ≤ 1) (hq : q ≤ 1) :
    bitGet (bitSet (bitSet (bitSet (bitSet (bitSet (bitSet B 1 p) 0 q) 6 w) 7 s) 5 ti) 3 ri) 0 = q ∧
    bitGet (bitSet (bitSet (bitSet (bitSet (bitSet (bitSet B 1 p) 0 q) 6 w) 7 s) 5 ti) 3 ri) 1 = p ∧
    bitGet (bitSet (bitSet (bitSet (bitSet (bitSet (bitSet B 1 p) 0 q) 6 w) 7 s) 5 ti) 3 ri) 3 = ri ∧
    bitGet (bitSet (bitSet (bitSet (bitSet (bitSet (bitSet B 1 p) 0 q) 6 w) 7 s) 5 ti) 3 ri) 5 = ti ∧
    bitGet (bitSet (bitSet (bitSet (bitSet (bitSet (bitSet B 1 p) 0 q) 6 w) 7 s) 5 ti) 3 ri) 6 = w ∧
    bitGet (bitSet (bitSet (bitSet (bitSet (bitSet (bitSet B 1 p) 0 q) 6 w) 7 s) 5 ti) 3 ri) 7 = s := by
  refine ⟨?_, ?_, ?_, ?_, ?_, ?_⟩
  · rw [bitGet_bitSet_ne _ 3 0 _ hri (by omega), bitGet_bitSet_ne _ 5 0 _ hti (by omega),
      bitGet_bitSet_ne _ 7 0 _ hs (by omega), bitGet_bitSet_ne _ 6 0 _ hw (by omega),
      bitGet_bitSet_self _ 0 _ hq]
  · rw [bitGet_bitSet_ne _ 3 1 _ hri (by omega), bitGet_bitSet_ne _ 5 1 _ hti (by omega),
      bitGet_bitSet_ne _ 7 1 _ hs (by omega), bitGet_bitSet_ne _ 6 1 _ hw (by omega),
      bitGet_bitSet_ne _ 0 1 _ hq (by omega), bitGet_bitSet_self _ 1 _ hp]
  · rw [bitGet_bitSet_self _ 3 _ hri]
  · rw [bitGet_bitSet_ne _ 3 5 _ hri (by omega), bitGet_bitSet_self _ 5 _ hti]
  · rw [bitGet_bitSet_ne _ 3 6 _ hri (by omega), bitGet_bitSet_ne _ 5 6 _ hti (by omega),
      bitGet_bitSet_ne _ 7 6 _ hs (by omega), bitGet_bitSet_self _ 6 _ hw]
  · rw [bitGet_bitSet_ne _ 3 7 _ hri (by omega), bitGet_bitSet_ne _ 5 7 _ hti (by omega),
      bitGet_bitSet_self _ 7 _ hs]

/-- The channel values the claims call "valid": non-empty, frequency and
offset in 10 Hz units inside the 8-digit BCD range, mode and skip from
their fixed lists, tone triples accepted by the fixed tables, and a
duplex whose stored offset survives the decoder's 71 MHz
reclassification: "", "+", "-" carry a relative offset of at most
71 MHz (nonzero for "+"/"-"), "split" an absolute tx frequency more
than 71 MHz away from rx. -/
def validMem (m : ChanView) : Prop :=
  m.empty = false ∧
  10 ∣ m.freq ∧ m.freq < 1000000000 ∧
  10 ∣ m.offset ∧ m.offset < 1000000000 ∧
  m.mode ∈ MODES ∧ m.skip ∈ SKIP_VALUES ∧
  validToneSel m.txtone ∧ validToneSel m.rxtone ∧
  ((m.duplex = "" ∧ m.offset ≤ 71000000) ∨
   (m.duplex = "+" ∧ 0 < m.offset ∧ m.offset ≤ 71000000) ∨
   (m.duplex = "-" ∧ 0 < m.offset ∧ m.offset ≤ 71000000) ∨
   (m.duplex = "split" ∧ (m.offset + 71000000 < m.freq ∨ m.freq + 71000000 < m.offset)))

/-- Encoding a valid channel value into a slice and decoding it back is
the identity, whatever the slice held before. -/
theorem encodeChan_roundtrip (c0 : ChanBytes) (m : ChanView) (hv : validMem m) :
    (encodeChan c0 m).2 = none ∧ decodeChan (encodeChan c0 m).1 = m := by
  obtain ⟨emp, fr, off, dup, mo, sk, txt, rxt⟩ := m
  simp only [validMem] at hv
  obtain ⟨hemp, hdf, hf9, hdo, ho9, hmode, hskip, htxv, hrxv, hdup⟩ := hv
  subst hemp
  obtain ⟨tb, ti, htb, hti, htd⟩ := encode_tone_roundtrip _ htxv
  obtain ⟨rb, ri, hrb, hri, hrd⟩ := encode_tone_roundtrip _ hrxv
  have hw : listIdx MODES mo ≤ 1 := by
    have h1 := listIdx_lt_length _ _ hmode
    have h2 : MODES.length = 2 := rfl
    omega
  have hs : listIdx SKIP_VALUES sk ≤ 1 := by
    have h1 := listIdx_lt_length _ _ hskip
    have h2 : SKIP_VALUES.length = 2 := rfl
    omega
  have hbne : ¬ bcdByte (fr / 10 % 100) = 255 := by
    have := bcdByte_lt (fr / 10 % 100) (Nat.mod_lt _ (by norm_num))
    omega
  have hfv : lbcdVal4 (bcdByte (fr / 10 % 100)) (bcdByte (fr / 10 / 100 % 100))
      (bcdByte (fr / 10 / 10000 % 100)) (bcdByte (fr / 10 / 1000000 % 100)) * 10 = fr := by
    rw [lbcd4_roundtrip _ (by omega), Nat.div_mul_cancel hdf]
  rcases hdup with ⟨hd, hoff⟩ | ⟨hd, hopos, hoff⟩ | ⟨hd, hopos, hoff⟩ | ⟨hd, hsplit⟩ <;> subst hd
  · -- duplex ""
    obtain ⟨hg0, hg1, hg3, hg5, hg6, hg7⟩ := chainBits c0.b10 (listIdx MODES mo)
      (listIdx SKIP_VALUES sk) ti ri 0 0 hw hs hti hri (by omega) (by omega)
    have hov : lbcdVal4 (bcdByte (off / 10 % 100)) (bcdByte (off / 10 / 100 % 100))
        (bcdByte (off / 10 / 10000 % 100)) (bcdByte (off / 10 / 1000000 % 100)) * 10 = off := by
      rw [lbcd4_roundtrip _ (by omega), Nat.div_mul_cancel hdo]
    have henc : encodeChan c0 ⟨false, fr, off, "", mo, sk, txt, rxt⟩ =
        (⟨bcdByte (fr / 10 % 100), bcdByte (fr / 10 / 100 % 100),
          bcdByte (fr / 10 / 10000 % 100), bcdByte (fr / 10 / 1000000 % 100),
          rb,
          bcdByte (off / 10 % 100), bcdByte (off / 10 / 100 % 100),
          bcdByte (off / 10 / 10000 % 100), bcdByte (off / 10 / 1000000 % 100),
          tb,
          bitSet (bitSet (bitSet (bitSet (bitSet (bitSet c0.b10 1 0) 0 0)
            6 (listIdx MODES mo)) 7 (listIdx SKIP_VALUES sk)) 5 ti) 3 ri,
          c0.b11, c0.b12, c0.b13, c0.b14, c0.b15⟩, none) := by
      simp [encodeChan, withRxfreq, withTxoffset, hmode, hskip, htb, hrb]
    rw [henc]
    refine ⟨rfl, ?_⟩
    by_cases hoz : off = 0
    · have hnn : ¬ (off ≠ 0) := fun h => h hoz
      simp [decodeChan, hbne, hfv, hov, hnn, hg0, hg1, hg3, hg5, hg6, hg7,
        getD_listIdx _ _ _ hmode, getD_listIdx _ _ _ hskip,
      getElem?_listIdx _ _ _ hmode, getElem?_listIdx _ _ _ hskip, htd, hrd]
    · have hno : ¬ (71000000 < off) := by omega
      simp [decodeChan, hbne, hfv, hov, hoz, hno, hg0, hg1, hg3, hg5, hg6, hg7,
        getD_listIdx _ _ _ hmode, getD_listIdx _ _ _ hskip,
      getElem?_listIdx _ _ _ hmode, getElem?_listIdx _ _ _ hskip, htd, hrd]
  · -- duplex "+"
    obtain ⟨hg0, hg1, hg3, hg5, hg6, hg7⟩ := chainBits c0.b10 (listIdx MODES mo)
      (listIdx SKIP_VALUES sk) ti ri 1 0 hw hs hti hri (by omega) (by omega)
    have hov : lbcdVal4 (bcdByte (off / 10 % 100)) (bcdByte (off / 10 / 100 % 100))
        (bcdByte (off / 10 / 10000 % 100)) (bcdByte (off / 10 / 1000000 % 100)) * 10 = off := by
      rw [lbcd4_roundtrip _ (by omega), Nat.div_mul_cancel hdo]
    have henc : encodeChan c0 ⟨false, fr, off, "+", mo, sk, txt, rxt⟩ =
        (⟨bcdByte (fr / 10 % 100), bcdByte (fr / 10 / 100 % 100),
          bcdByte (fr / 10 / 10000 % 100), bcdByte (fr / 10 / 1000000 % 100),
          rb,
          bcdByte (off / 10 % 100), bcdByte (off / 10 / 100 % 100),
          bcdByte (off / 10 / 10000 % 100), bcdByte (off / 10 / 1000000 % 100),
          tb,
          bitSet (bitSet (bitSet (bitSet (bitSet (bitSet c0.b10 1 1) 0 0)
            6 (listIdx MODES mo)) 7 (listIdx SKIP_VALUES sk)) 5 ti) 3 ri,
          c0.b11, c0.b12, c0.b13, c0.b14, c0.b15⟩, none) := by
      simp [encodeChan, withRxfreq, withTxoffset, hmode, hskip, htb, hrb]
    rw [henc]
    refine ⟨rfl, ?_⟩
    have hoz : ¬ off = 0 := by omega
    have hno : ¬ (71000000 < off) := by omega
    simp [decodeChan, hbne, hfv, hov, hoz, hno, hg0, hg1, hg3, hg5, hg6, hg7,
      getD_listIdx _ _ _ hmode, getD_listIdx _ _ _ hskip,
      getElem?_listIdx _ _ _ hmode, getElem?_listIdx _ _ _ hskip, htd, hrd]
  · -- duplex "-"
    obtain ⟨hg0, hg1, hg3, hg5, hg6, hg7⟩ := chainBits c0.b10 (listIdx MODES mo)
      (listIdx SKIP_VALUES sk) ti ri 0 1 hw hs hti hri (by omega) (by omega)
    have hov : lbcdVal4 (bcdByte (off / 10 % 100)) (bcdByte (off / 10 / 100 % 100))
        (bcdByte (off / 10 / 10000 % 100)) (bcdByte (off / 10 / 1000000 % 100)) * 10 = off := by
      rw [lbcd4_roundtrip _ (by omega), Nat.div_mul_cancel hdo]
    have henc : encodeChan c0 ⟨false, fr, off, "-", mo, sk, txt, rxt⟩ =
        (⟨bcdByte (fr / 10 % 100), bcdByte (fr / 10 / 100 % 100),
          bcdByte (fr / 10 / 10000 % 100), bcdByte (fr / 10 / 1000000 % 100),
          rb,
          bcdByte (off / 10 % 100), bcdByte (off / 10 / 100 % 100),
          bcdByte (off / 10 / 10000 % 100), bcdByte (off / 10 / 1000000 % 100),
          tb,
          bitSet (bitSet (bitSet (bitSet (bitSet (bitSet c0.b10 1 0) 0 1)
            6 (listIdx MODES mo)) 7 (listIdx SKIP_VALUES sk)) 5 ti) 3 ri,
          c0.b11, c0.b12, c0.b13, c0.b14, c0.b15⟩, none) := by
      simp [encodeChan, withRxfreq, withTxoffset, hmode, hskip, htb, hrb]
    rw [henc]
    refine ⟨rfl, ?_⟩
    have hoz : ¬ off = 0 := by omega
    have hno : ¬ (71000000 < off) := by omega
    simp [decodeChan, hbne, hfv, hov, hoz, hno, hg0, hg1, hg3, hg5, hg6, hg7,
      getD_listIdx _ _ _ hmode, getD_listIdx _ _ _ hskip,
      getElem?_listIdx _ _ _ hmode, getElem?_listIdx _ _ _ hskip, htd, hrd]
  · -- duplex "split"
    rcases hsplit with hsp | hsp
    · -- tx below rx: minus flag, stored magnitude fr - off
      obtain ⟨hg0, hg1, hg3, hg5, hg6, hg7⟩ := chainBits c0.b10 (listIdx MODES mo)
        (listIdx SKIP_VALUES sk) ti ri 0 1 hw hs hti hri (by omega) (by omega)
      have hdd : 10 ∣ (fr - off) := Nat.dvd_sub' hdf hdo
      have hdv : lbcdVal4 (bcdByte ((fr - off) / 10 % 100)) (bcdByte ((fr - off) / 10 / 100 % 100))
          (bcdByte ((fr - off) / 10 / 10000 % 100))
          (bcdByte ((fr - off) / 10 / 1000000 % 100)) * 10 = fr - off := by
        rw [lbcd4_roundtrip _ (by omega), Nat.div_mul_cancel hdd]
      have hfo : off < fr := by omega
      have henc : encodeChan c0 ⟨false, fr, off, "split", mo, sk, txt, rxt⟩ =
          (⟨bcdByte (fr / 10 % 100), bcdByte (fr / 10 / 100 % 100),
            bcdByte (fr / 10 / 10000 % 100), bcdByte (fr / 10 / 1000000 % 100),
            rb,
            bcdByte ((fr - off) / 10 % 100), bcdByte ((fr - off) / 10 / 100 % 100),
            bcdByte ((fr - off) / 10 / 10000 % 100), bcdByte ((fr - off) / 10 / 1000000 % 100),
            tb,
            bitSet (bitSet (bitSet (bitSet (bitSet (bitSet c0.b10 1 0) 0 1)
              6 (listIdx MODES mo)) 7 (listIdx SKIP_VALUES sk)) 5 ti) 3 ri,
            c0.b11, c0.b12, c0.b13, c0.b14, c0.b15⟩, none) := by
        simp [encodeChan, withRxfreq, withTxoffset, hmode, hskip, htb, hrb, hfo]
      rw [henc]
      refine ⟨rfl, ?_⟩
      have hnz : ¬ (fr - off = 0) := by omega
      have hgt : 71000000 < fr - off := by omega
      have hsub : fr - (fr - off) = off := by omega
      simp [decodeChan, hbne, hfv, hdv, hnz, hgt, hsub, hg0, hg1, hg3, hg5, hg6, hg7,
        getD_listIdx _ _ _ hmode, getD_listIdx _ _ _ hskip,
      getElem?_listIdx _ _ _ hmode, getElem?_listIdx _ _ _ hskip, htd, hrd]
    · -- tx above rx: plus flag, stored magnitude off - fr
      obtain ⟨hg0, hg1, hg3, hg5, hg6, hg7⟩ := chainBits c0.b10 (listIdx MODES mo)
        (listIdx SKIP_VALUES sk) ti ri 1 0 hw hs hti hri (by omega) (by omega)
      have hdd : 10 ∣ (off - fr) := Nat.dvd_sub' hdo hdf
      have hdv : lbcdVal4 (bcdByte ((off - fr) / 10 % 100)) (bcdByte ((off - fr) / 10 / 100 % 100))
          (bcdByte ((off - fr) / 10 / 10000 % 100))
          (bcdByte ((off - fr) / 10 / 1000000 % 100)) * 10 = off - fr := by
        rw [lbcd4_roundtrip _ (by omega), Nat.div_mul_cancel hdd]
      have hfo : ¬ (off < fr) := by omega
      have henc : encodeChan c0 ⟨false, fr, off, "split", mo, sk, txt, rxt⟩ =
          (⟨bcdByte (fr / 10 % 100), bcdByte (fr / 10 / 100 % 100),
            bcdByte (fr / 10 / 10000 % 100), bcdByte (fr / 10 / 1000000 % 100),
            rb,
            bcdByte ((off - fr) / 10 % 100), bcdByte ((off - fr) / 10 / 100 % 100),
            bcdByte ((off - fr) / 10 / 10000 % 100), bcdByte ((off - fr) / 10 / 1000000 % 100),
            tb,
            bitSet (bitSet (bitSet (bitSet (bitSet (bitSet c0.b10 1 1) 0 0)
              6 (listIdx MODES mo)) 7 (listIdx SKIP_VALUES sk)) 5 ti) 3 ri,
            c0.b11, c0.b12, c0.b13, c0.b14, c0.b15⟩, none) := by
        simp [encodeChan, withRxfreq, withTxoffset, hmode, hskip, htb, hrb, hfo]
      rw [henc]
      refine ⟨rfl, ?_⟩
      have hnz : ¬ (off - fr = 0) := by omega
      have hgt : 71000000 < off - fr := by omega
      have hsub : fr + (off - fr) = off := by omega
      simp [decodeChan, hbne, hfv, hdv, hnz, hgt, hsub, hg0, hg1, hg3, hg5, hg6, hg7,
        getD_listIdx _ _ _ hmode, getD_listIdx _ _ _ hskip,
      getElem?_listIdx _ _ _ hmode, getElem?_listIdx _ _ _ hskip, htd, hrd]

theorem chanOffset_bound (sel : Sel) (hsel : selOk sel) : chanOffset sel + 16 ≤ 2048 := by
  rcases sel with _ | _ | n
  · simp [chanOffset]
  · simp [chanOffset]
  · obtain ⟨h1, h2⟩ := hsel
    simp only [chanOffset]
    omega

/-- C1: for every valid channel value (frequency, offset,
duplex ∈ {"", "+", "-", "split"}, bandwidth, skip and tone settings from
the fixed tables), `set_memory` succeeds and `get_memory` on the updated
image returns the original value — including split duplex, where rx and
the absolute tx frequency differ by more than 71 MHz. -/
theorem set_get_roundtrip (img : Image) (sel : Sel) (m : ChanView)
    (himg : img.length = 2048) (hsel : selOk sel) (hv : validMem m) :
    (set_memory img sel m).2 = none ∧
    get_memory (set_memory img sel m).1 sel = m := by
  have hoff : chanOffset sel + 16 ≤ img.length := by
    rw [himg]
    exact chanOffset_bound sel hsel
  obtain ⟨henc, hdec⟩ := encodeChan_roundtrip (readChan img (chanOffset sel)) m hv
  constructor
  · exact henc
  · rw [get_memory_eq_decode]
    show decodeChan (readChan (writeChan img (chanOffset sel)
      (encodeChan (readChan img (chanOffset sel)) m).1) (chanOffset sel)) = m
    rw [readChan_writeChan _ _ _ hoff]
    exact hdec

/-- C1 witness: a concrete split-duplex channel (rx 146.52 MHz, tx
446.00 MHz, analog tx tone 88.5 Hz, reversed digital rx tone 23) stored
into channel 5 of an all-zero image and read back unchanged. -/
def wMem : ChanView :=
  ⟨false, 146520000, 446000000, "split", "FM", "",
   ⟨"Tone", some 885, none⟩, ⟨"DTCS", some 23, some "R"⟩⟩

def wImg : Image := List.replicate 2048 0

theorem set_get_roundtrip_witness :
    (set_memory wImg (Sel.num 5) wMem).2 = none ∧
    get_memory (set_memory wImg (Sel.num 5) wMem).1 (Sel.num 5) = wMem :=
  set_get_roundtrip wImg (Sel.num 5) wMem (List.length_replicate 2048 0) (by simp [selOk])
    (by unfold validMem validToneSel; decide)

/-- C8: `set_memory` only touches the selected channel's 16-byte slice:
every byte outside `[chanOffset sel, chanOffset sel + 16)` is unchanged,
whatever the outcome of the call. -/
theorem set_memory_frame (img : Image) (sel : Sel) (m : ChanView) (i : Nat)
    (himg : img.length = 2048) (hsel : selOk sel)
    (hok : (set_memory img sel m).2 = none)
    (hi : i < chanOffset sel ∨ chanOffset sel + 16 ≤ i) :
    byteAt (set_memory img sel m).1 i = byteAt img i := by
  have hoff : chanOffset sel + 16 ≤ img.length := by
    rw [himg]
    exact chanOffset_bound sel hsel
  exact byteAt_writeChan_outside img (chanOffset sel)
    (encodeChan (readChan img (chanOffset sel)) m).1 i hoff hi

/-- C8 witness: emptying channel 1 of an all-zero image leaves byte 0
(before the slice at 0x10) and byte 0x20 (after it) unchanged. -/
theorem set_memory_frame_witness :
    byteAt (set_memory wImg (Sel.num 1) ⟨true, 0, 0, "", "FM", "",
      ⟨"", none, none⟩, ⟨"", none, none⟩⟩).1 0 = byteAt wImg 0 :=
  set_memory_frame wImg (Sel.num 1) _ 0 (List.length_replicate 2048 0) (by simp [selOk]) rfl
    (Or.inl (by simp [chanOffset]))

/-- C10: `get_memory` is read-only: threading the image through every
read it performs returns it byte-for-byte unchanged, for every selector
(numeric or special). -/
theorem get_memory_readonly (img : Image) (sel : Sel) :
    (get_memory_st img sel).2 = img := rfl

/-- C9: a non-empty record with a nonzero stored offset of at most
71 MHz and both direction flags clear decodes to duplex "" while the
nonzero raw offset is still exposed. -/
theorem get_memory_no_flags_duplex (img : Image) (sel : Sel)
    (h0 : (readChan img (chanOffset sel)).b0 ≠ 255)
    (hnz : lbcdVal4 (readChan img (chanOffset sel)).b5 (readChan img (chanOffset sel)).b6
      (readChan img (chanOffset sel)).b7 (readChan img (chanOffset sel)).b8 * 10 ≠ 0)
    (hle : lbcdVal4 (readChan img (chanOffset sel)).b5 (readChan img (chanOffset sel)).b6
      (readChan img (chanOffset sel)).b7 (readChan img (chanOffset sel)).b8 * 10 ≤ 71000000)
    (hminus : bitGet (readChan img (chanOffset sel)).b10 0 = 0)
    (hplus : bitGet (readChan img (chanOffset sel)).b10 1 = 0) :
    (get_memory img sel).duplex = "" ∧
    (get_memory img sel).offset =
      lbcdVal4 (readChan img (chanOffset sel)).b5 (readChan img (chanOffset sel)).b6
        (readChan img (chanOffset sel)).b7 (readChan img (chanOffset sel)).b8 * 10 ∧
    (get_memory img sel).offset ≠ 0 := by
  rw [get_memory_eq_decode]
  generalize hc : readChan img (chanOffset sel) = c at *
  have hno : ¬ (71000000 < lbcdVal4 c.b5 c.b6 c.b7 c.b8 * 10) := by omega
  simp [decodeChan, h0, hnz, hle, hno, hminus, hplus]

/-- C9 witness: a record with stored offset 6 MHz (BCD `60` in the third
offset byte), no flags, first byte 0x45, at the emergency channel of a
short synthetic image. -/
theorem get_memory_no_flags_duplex_witness :
    (get_memory [0x45, 0, 0, 0, 0, 0, 0, 0x60, 0, 0, 0, 0, 0, 0, 0, 0] Sel.emg).duplex = "" ∧
    (get_memory [0x45, 0, 0, 0, 0, 0, 0, 0x60, 0, 0, 0, 0, 0, 0, 0, 0] Sel.emg).offset =
      lbcdVal4 (readChan [0x45, 0, 0, 0, 0, 0, 0, 0x60, 0, 0, 0, 0, 0, 0, 0, 0]
          (chanOffset Sel.emg)).b5
        (readChan [0x45, 0, 0, 0, 0, 0, 0, 0x60, 0, 0, 0, 0, 0, 0, 0, 0] (chanOffset Sel.emg)).b6
        (readChan [0x45, 0, 0, 0, 0, 0, 0, 0x60, 0, 0, 0, 0, 0, 0, 0, 0] (chanOffset Sel.emg)).b7
        (readChan [0x45, 0, 0, 0, 0, 0, 0, 0x60, 0, 0, 0, 0, 0, 0, 0, 0] (chanOffset Sel.emg)).b8
        * 10 ∧
    (get_memory [0x45, 0, 0, 0, 0, 0, 0, 0x60, 0, 0, 0, 0, 0, 0, 0, 0] Sel.emg).offset ≠ 0 :=
  get_memory_no_flags_duplex _ Sel.emg (by decide) (by decide) (by decide)
    (by decide) (by decide)

/-- A channel value whose rx tone (1234 tenths of Hz) is absent from the
fixed analog table: `set_memory` fails on it, but only after committing
the frequency, offset, duplex, mode, skip and tx tone fields. -/
def cMem : ChanView :=
  ⟨false, 400000000, 0, "", "FM", "", ⟨"", none, none⟩, ⟨"Tone", some 1234, none⟩⟩

/-- C3 counterexample: on an all-zero image, `set_memory` with an
unsupported rx tone raises the table error, yet byte 3 of the image (the
high BCD byte of the frequency just written) has changed from 0x00 to
0x40 — the mutation is not all-or-nothing. -/
theorem set_memory_not_atomic :
    (set_memory wImg Sel.emg cMem).2 = some (RErr.toneUnsupported 1234) ∧
    byteAt (set_memory wImg Sel.emg cMem).1 3 = 0x40 ∧
    byteAt wImg 3 = 0 := by decide

/-- C3 amended: `set_memory` validates tone values only while encoding
them, after the frequency, offset, duplex flags, mode and skip fields
have already been written; when the rx tone is rejected by the fixed
tables the call fails with that error but the already-written bytes stay
changed — the frequency bytes of the slice decode to the new frequency
and the tx tone byte holds the new tx tone code. -/
theorem set_memory_fail_keeps_written (img : Image) (sel : Sel) (m : ChanView)
    (himg : img.length = 2048) (hsel : selOk sel)
    (hemp : m.empty = false) (hdf : 10 ∣ m.freq) (hf9 : m.freq < 1000000000)
    (hdup : m.duplex = "") (hmode : m.mode ∈ MODES) (hskip : m.skip ∈ SKIP_VALUES)
    (tb ti : Nat) (htx : encode_tone m.txtone = .ok (tb, ti)) (e : RErr)
    (hrx : encode_tone m.rxtone = .error e) :
    (set_memory img sel m).2 = some e ∧
    lbcdVal4 (byteAt (set_memory img sel m).1 (chanOffset sel))
        (byteAt (set_memory img sel m).1 (chanOffset sel + 1))
        (byteAt (set_memory img sel m).1 (chanOffset sel + 2))
        (byteAt (set_memory img sel m).1 (chanOffset sel + 3)) * 10 = m.freq ∧
    byteAt (set_memory img sel m).1 (chanOffset sel + 9) = tb := by
  have hoff16 : chanOffset sel + 16 ≤ img.length := by
    rw [himg]
    exact chanOffset_bound sel hsel
  have henc : encodeChan (readChan img (chanOffset sel)) m =
      (⟨bcdByte (m.freq / 10 % 100), bcdByte (m.freq / 10 / 100 % 100),
        bcdByte (m.freq / 10 / 10000 % 100), bcdByte (m.freq / 10 / 1000000 % 100),
        (readChan img (chanOffset sel)).b4,
        bcdByte (m.offset / 10 % 100), bcdByte (m.offset / 10 / 100 % 100),
        bcdByte (m.offset / 10 / 10000 % 100), bcdByte (m.offset / 10 / 1000000 % 100),
        tb,
        bitSet (bitSet (bitSet (bitSet (bitSet
          (readChan img (chanOffset sel)).b10 1 0) 0 0)
          6 (listIdx MODES m.mode)) 7 (listIdx SKIP_VALUES m.skip)) 5 ti,
        (readChan img (chanOffset sel)).b11, (readChan img (chanOffset sel)).b12,
        (readChan img (chanOffset sel)).b13, (readChan img (chanOffset sel)).b14,
        (readChan img (chanOffset sel)).b15⟩, some e) := by
    simp [encodeChan, hemp, hdup, hmode, hskip, htx, hrx, withRxfreq, withTxoffset]
  have hr := readChan_writeChan img (chanOffset sel)
    (encodeChan (readChan img (chanOffset sel)) m).1 hoff16
  rw [henc] at hr
  dsimp only at hr
  refine ⟨?_, ?_, ?_⟩
  · show (encodeChan (readChan img (chanOffset sel)) m).2 = some e
    rw [henc]
  · show lbcdVal4
        ((readChan (writeChan img (chanOffset sel)
          (encodeChan (readChan img (chanOffset sel)) m).1) (chanOffset sel)).b0)
        ((readChan (writeChan img (chanOffset sel)
          (encodeChan (readChan img (chanOffset sel)) m).1) (chanOffset sel)).b1)
        ((readChan (writeChan img (chanOffset sel)
          (encodeChan (readChan img (chanOffset sel)) m).1) (chanOffset sel)).b2)
        ((readChan (writeChan img (chanOffset sel)
          (encodeChan (readChan img (chanOffset sel)) m).1) (chanOffset sel)).b3) * 10 = m.freq
    rw [henc]
    dsimp only
    rw [hr]
    dsimp only
    rw [lbcd4_roundtrip _ (by omega), Nat.div_mul_cancel hdf]
  · show (readChan (writeChan img (chanOffset sel)
        (encodeChan (readChan img (chanOffset sel)) m).1) (chanOffset sel)).b9 = tb
    rw [henc]
    dsimp only
    rw [hr]

/-- C3 amended witness: the counterexample value run through the amended
theorem at the emergency channel of an all-zero image. -/
theorem set_memory_fail_keeps_written_witness :
    (set_memory wImg Sel.emg cMem).2 = some (RErr.toneUnsupported 1234) ∧
    lbcdVal4 (byteAt (set_memory wImg Sel.emg cMem).1 (chanOffset Sel.emg))
        (byteAt (set_memory wImg Sel.emg cMem).1 (chanOffset Sel.emg + 1))
        (byteAt (set_memory wImg Sel.emg cMem).1 (chanOffset Sel.emg + 2))
        (byteAt (set_memory wImg Sel.emg cMem).1 (chanOffset Sel.emg + 3)) * 10 = cMem.freq ∧
    byteAt (set_memory wImg Sel.emg cMem).1 (chanOffset Sel.emg + 9) = 0 :=
  set_memory_fail_keeps_written wImg Sel.emg cMem (List.length_replicate 2048 0) trivial
    rfl (by decide) (by decide) rfl (by decide) (by decide) 0 0 rfl
    (RErr.toneUnsupported 1234) rfl

/-! ## Clone protocol: frames, block receive, upload -/

/-- `_make_frame(cmd, addr, data)`: command byte, big-endian 2-byte
address, the constant length byte 16 (`BLOCK_SIZE`), then the optional
payload (`struct.pack(">BHB", ...)`). -/
def make_frame (cmd addr : Nat) (data : List Nat) : List Nat :=
  [cmd, addr / 256 % 256, addr % 256, 16] ++ data

/-- `_recv(radio, addr)` applied to the bytes actually received: fail on
a short or long answer (total length ≠ 20), fail unless the header is
`'W' + addr (big-endian) + 16`, else return the 16-byte payload. -/
def recvBlock (block : List Nat) (addr : Nat) : Except RErr (List Nat) :=
  if block.length < 20 then .error (.blockShort addr)
  else if block.length > 20 then .error (.blockLong addr)
  else if byteAt block 0 ≠ 87 ∨ byteAt block 1 * 256 + byteAt block 2 ≠ addr ∨
      byteAt block 3 ≠ 16 then .error (.badHeader addr)
  else .ok (block.drop 4)

/-- C5: `recvBlock` deterministically rejects exactly those inputs whose
total length is not 20, or whose command byte is not the
write-acknowledgment marker 'W' (0x57), or whose embedded big-endian
address differs from the requested one, or whose length byte is not 16;
on every other input it returns the 16-byte payload. -/
theorem recvBlock_spec (block : List Nat) (addr : Nat) :
    ((∃ e, recvBlock block addr = .error e) ↔
      (block.length ≠ 20 ∨ byteAt block 0 ≠ 87 ∨
       byteAt block 1 * 256 + byteAt block 2 ≠ addr ∨ byteAt block 3 ≠ 16)) ∧
    (block.length = 20 → byteAt block 0 = 87 →
      byteAt block 1 * 256 + byteAt block 2 = addr → byteAt block 3 = 16 →
      recvBlock block addr = .ok (block.drop 4) ∧ (block.drop 4).length = 16) := by
  constructor
  · constructor
    · intro ⟨e, he⟩
      by_contra hno
      push_neg at hno
      obtain ⟨hlen, hc, ha, hl⟩ := hno
      rw [recvBlock, if_neg (by omega), if_neg (by omega),
        if_neg (by simp [hc, ha, hl])] at he
      cases he
    · intro h
      unfold recvBlock
      rcases Nat.lt_trichotomy block.length 20 with hlt | heq | hgt
      · exact ⟨.blockShort addr, by rw [if_pos hlt]⟩
      · rw [if_neg (by omega), if_neg (by omega)]
        have hhdr : byteAt block 0 ≠ 87 ∨ byteAt block 1 * 256 + byteAt block 2 ≠ addr ∨
            byteAt block 3 ≠ 16 := by
          rcases h with h | h
          · exact absurd heq h
          · exact h
        exact ⟨.badHeader addr, by rw [if_pos hhdr]⟩
      · rw [if_neg (by omega)]
        exact ⟨.blockLong addr, by rw [if_pos hgt]⟩
  · intro hlen hc ha hl
    refine ⟨?_, ?_⟩
    · rw [recvBlock, if_neg (by omega), if_neg (by omega),
        if_neg (by simp [hc, ha, hl])]
    · rw [List.length_drop, hlen]

/-- C5 witness: a well-formed 20-byte answer for address 0x0123 is
accepted with its 16-byte payload, and the same bytes are rejected for
the mismatched address 0x0124. -/
theorem recvBlock_spec_witness :
    recvBlock [87, 1, 35, 16, 9, 9, 9, 9, 9, 9, 9, 9, 9, 9, 9, 9, 9, 9, 9, 9] 291 =
      .ok [9, 9, 9, 9, 9, 9, 9, 9, 9, 9, 9, 9, 9, 9, 9, 9] ∧
    (∃ e, recvBlock [87, 1, 35, 16, 9, 9, 9, 9, 9, 9, 9, 9, 9, 9, 9, 9, 9, 9, 9, 9] 292 =
      .error e) := by
  constructor
  · exact ((recvBlock_spec [87, 1, 35, 16, 9, 9, 9, 9, 9, 9, 9, 9, 9, 9, 9, 9, 9, 9, 9, 9]
      291).2 (by decide) (by decide) (by decide) (by decide)).1
  · exact (recvBlock_spec [87, 1, 35, 16, 9, 9, 9, 9, 9, 9, 9, 9, 9, 9, 9, 9, 9, 9, 9, 9]
      292).1.mpr (by decide)

/-- The block-write loop of `_upload`: iterate the remaining block count
(24 = `WRITE_SIZE // BLOCK_SIZE` at top level), at block `k` send a
write frame for address `16*k` with that 16-byte slice of the image,
read one byte, stop with an address-stamped error on anything but the
ACK 0x06 (or a read failure on silence). Returns the write frames sent
and the outcome. -/
def uploadGo (data : List Nat) (resp : Nat → Option Nat) :
    Nat → Nat → List (List Nat) × Option RErr
  | _, 0 => ([], none)
  | k, n + 1 =>
    let addr := 16 * k
    let frame := make_frame 87 addr ((data.drop addr).take 16)
    match resp k with
    | none => ([frame], some .readFail)
    | some b =>
      if b = 6 then
        let r := uploadGo data resp (k + 1) n
        (frame :: r.1, r.2)
      else ([frame], some (.badAckWrite addr))

/-- `_upload`'s write-frame traffic: 24 blocks starting at address 0
(`range(0, WRITE_SIZE, BLOCK_SIZE)` with `WRITE_SIZE = 0x180`,
`BLOCK_SIZE = 0x10`), however large the image is. -/
def upload_frames (data : List Nat) (resp : Nat → Option Nat) :
    List (List Nat) × Option RErr :=
  uploadGo data resp 0 24

theorem uploadGo_allAck (data : List Nat) (resp : Nat → Option Nat) :
    ∀ n k, (∀ i, i < n → resp (k + i) = some 6) →
      uploadGo data resp k n =
        ((List.range n).map (fun i => make_frame 87 (16 * (k + i))
          ((data.drop (16 * (k + i))).take 16)), none) := by
  intro n
  induction n with
  | zero => intro k _; rfl
  | succ n ih =>
    intro k hall
    have h0 : resp k = some 6 := by simpa using hall 0 (by omega)
    have hrest : ∀ i, i < n → resp ((k + 1) + i) = some 6 := by
      intro i hi
      rw [show k + 1 + i = k + (i + 1) from by omega]
      exact hall (i + 1) (by omega)
    have hlist : (List.range (n + 1)).map
        (fun i => make_frame 87 (16 * (k + i)) ((data.drop (16 * (k + i))).take 16)) =
        make_frame 87 (16 * k) ((data.drop (16 * k)).take 16) ::
          (List.range n).map
            (fun i => make_frame 87 (16 * (k + 1 + i)) ((data.drop (16 * (k + 1 + i))).take 16)) := by
      rw [List.range_succ_eq_map, List.map_cons, List.map_map]
      refine congrArg₂ List.cons (by simp) ?_
      apply List.map_congr_left
      intro i hi
      simp only [Function.comp_apply]
      rw [show k + 1 + i = k + (i + 1) from by omega]
    simp only [uploadGo, h0, if_pos rfl, ih (k + 1) hrest, hlist, if_true]

theorem uploadGo_failAt (data : List Nat) (resp : Nat → Option Nat) :
    ∀ n k j b, j < n → (∀ i, i < j → resp (k + i) = some 6) →
      resp (k + j) = some b → b ≠ 6 →
      (uploadGo data resp k n).1.length = j + 1 ∧
      (uploadGo data resp k n).2 = some (.badAckWrite (16 * (k + j))) := by
  intro n
  induction n with
  | zero => intro k j b hj; omega
  | succ n ih =>
    intro k j b hj hpre hj6 hb
    cases j with
    | zero =>
      have h0 : resp k = some b := by simpa using hj6
      simp [uploadGo, h0, hb]
    | succ j =>
      have h0 : resp k = some 6 := by simpa using hpre 0 (by omega)
      have hpre' : ∀ i, i < j → resp ((k + 1) + i) = some 6 := by
        intro i hi
        rw [show k + 1 + i = k + (i + 1) from by omega]
        exact hpre (i + 1) (by omega)
      have hj6' : resp ((k + 1) + j) = some b := by
        rw [show k + 1 + j = k + (j + 1) from by omega]
        exact hj6
      obtain ⟨hl, he⟩ := ih (k + 1) j b (by omega) hpre' hj6' hb
      simp only [uploadGo, h0, if_pos rfl, if_true]
      constructor
      · simpa using hl
      · rw [show 16 * (k + (j + 1)) = 16 * (k + 1 + j) from by ring]
        simpa using he

/-- C2: with the device ACKing every block, `_upload` emits exactly 24
write frames — one per 16-byte block of the 384-byte writable prefix,
in address order, whatever else the 2048-byte image holds; on the first
response byte that is not the ACK 0x06 it stops with an error naming the
failing block address, having sent only the frames up to and including
that block. -/
theorem upload_spec (data : List Nat) (resp : Nat → Option Nat) :
    ((∀ i, i < 24 → resp i = some 6) →
      upload_frames data resp =
        ((List.range 24).map (fun i => make_frame 87 (16 * i) ((data.drop (16 * i)).take 16)),
         none)) ∧
    (∀ j b, j < 24 → (∀ i, i < j → resp i = some 6) → resp j = some b → b ≠ 6 →
      (upload_frames data resp).1.length = j + 1 ∧
      (upload_frames data resp).2 = some (.badAckWrite (16 * j))) := by
  constructor
  · intro hall
    have := uploadGo_allAck data resp 24 0 (by simpa using hall)
    simpa [upload_frames] using this
  · intro j b hj hpre hjb hb
    have := uploadGo_failAt data resp 24 0 j b hj (by simpa using hpre) (by simpa using hjb) hb
    simpa [upload_frames] using this

/-- C2 witness: on an all-zero image, a device that ACKs the first two
blocks and answers 0x15 on the third receives exactly 3 frames and the
upload stops with the error for address 0x20. -/
theorem upload_spec_witness :
    (upload_frames wImg (fun k => if k < 2 then some 6 else some 21)).1.length = 3 ∧
    (upload_frames wImg (fun k => if k < 2 then some 6 else some 21)).2 =
      some (.badAckWrite 32) :=
  (upload_spec wImg (fun k => if k < 2 then some 6 else some 21)).2 2 21 (by omega)
    (fun i hi => by simp [hi]) (by simp) (by omega)

/-! ## Clone protocol: buffer drain and handshake -/

/-- The fixed 8-byte magic `BFT1_magic = b"\x05PROGRAM"`. -/
def BFT1_magic : List Nat := [0x05, 0x50, 0x52, 0x4F, 0x47, 0x52, 0x41, 0x4D]

/-- `_clean_buffer`'s loop over successive `pipe.read(100)` results
(`chunks`; an empty chunk is a timed-out read and ends the loop), with
the running byte count: add each chunk's length and fail once the count
exceeds 101 (the driver's hard limit against an endless stream). -/
def clean_buffer_go : List (List Nat) → Nat → Option RErr
  | [], _ => none
  | d :: rest, count =>
    let c := count + d.length
    if c > 101 then some .dirtySerial
    else if d.length = 0 then none
    else clean_buffer_go rest c

/-- `_clean_buffer(radio)`: drain the inbound buffer, starting the count
at zero. `none` means the buffer was drained successfully. -/
def clean_buffer (chunks : List (List Nat)) : Option RErr :=
  clean_buffer_go chunks 0

/-- `_start_clone_mode`'s attempt loop: up to the remaining attempt
count (3 at top level), send the magic, read one byte (`attempt ↦
resp attempt`), succeed immediately on ACK 0x06, fail the whole call on
a silent read, otherwise try again. Returns how many magics were sent
and the outcome. -/
def cloneGo (resp : Nat → Option Nat) : Nat → Nat → Nat × Except RErr Bool
  | _, 0 => (0, .ok false)
  | k, n + 1 =>
    match resp k with
    | none => (1, .error .readFail)
    | some b =>
      if b = 6 then (1, .ok true)
      else
        let r := cloneGo resp (k + 1) n
        (r.1 + 1, r.2)

/-- `_start_clone_mode(radio, status)`: clean the serial buffer first
(aborting on the runaway-data limit), then run the 3-attempt magic
handshake. Returns how many magics were sent and the outcome. -/
def start_clone_mode (chunks : List (List Nat)) (resp : Nat → Option Nat) :
    Nat × Except RErr Bool :=
  match clean_buffer chunks with
  | some e => (0, .error e)
  | none => cloneGo resp 0 3

theorem clean_buffer_go_ok (chunks : List (List Nat)) :
    ∀ count, count + (chunks.map List.length).sum ≤ 101 → clean_buffer_go chunks count = none := by
  induction chunks with
  | nil => intro count _; rfl
  | cons d rest ih =>
    intro count h
    simp only [List.map_cons, List.sum_cons] at h
    simp only [clean_buffer_go]
    rw [if_neg (by omega)]
    by_cases hz : d.length = 0
    · rw [if_pos hz]
    · rw [if_neg hz]
      exact ih _ (by omega)

theorem clean_buffer_go_overflow (chunks : List (List Nat)) :
    ∀ count, (∀ c ∈ chunks, c ≠ []) → 101 < count + (chunks.map List.length).sum →
      count ≤ 101 → clean_buffer_go chunks count = some .dirtySerial := by
  induction chunks with
  | nil =>
    intro count _ hgt hle
    simp only [List.map_nil, List.sum_nil] at hgt
    omega
  | cons d rest ih =>
    intro count hne hgt hle
    simp only [List.map_cons, List.sum_cons] at hgt
    simp only [clean_buffer_go]
    by_cases hover : 101 < count + d.length
    · rw [if_pos hover]
    · rw [if_neg hover]
      have hdz : d.length ≠ 0 := fun h =>
        hne d (by simp) (List.length_eq_zero.mp h)
      rw [if_neg hdz]
      exact ih _ (fun c hc => hne c (by simp [hc])) (by omega) (by omega)

theorem cloneGo_succeedsAt (resp : Nat → Option Nat) :
    ∀ n k j, j < n → (∀ i, i < j → ∃ b, resp (k + i) = some b ∧ b ≠ 6) →
      resp (k + j) = some 6 → cloneGo resp k n = (j + 1, .ok true) := by
  intro n
  induction n with
  | zero => intro k j hj; omega
  | succ n ih =>
    intro k j hj hpre hj6
    cases j with
    | zero =>
      have h0 : resp k = some 6 := by simpa using hj6
      simp [cloneGo, h0]
    | succ j =>
      obtain ⟨b, hb, hb6⟩ := by simpa using hpre 0 (by omega)
      have hpre' : ∀ i, i < j → ∃ c, resp ((k + 1) + i) = some c ∧ c ≠ 6 := by
        intro i hi
        rw [show k + 1 + i = k + (i + 1) from by omega]
        exact hpre (i + 1) (by omega)
      have hj6' : resp ((k + 1) + j) = some 6 := by
        rw [show k + 1 + j = k + (j + 1) from by omega]
        exact hj6
      simp [cloneGo, hb, hb6, ih (k + 1) j (by omega) hpre' hj6']

theorem cloneGo_allFail (resp : Nat → Option Nat) :
    ∀ n k, (∀ i, i < n → ∃ b, resp (k + i) = some b ∧ b ≠ 6) →
      cloneGo resp k n = (n, .ok false) := by
  intro n
  induction n with
  | zero => intro k _; rfl
  | succ n ih =>
    intro k hall
    obtain ⟨b, hb, hb6⟩ := by simpa using hall 0 (by omega)
    have hall' : ∀ i, i < n → ∃ c, resp ((k + 1) + i) = some c ∧ c ≠ 6 := by
      intro i hi
      rw [show k + 1 + i = k + (i + 1) from by omega]
      exact hall (i + 1) (by omega)
    simp [cloneGo, hb, hb6, ih (k + 1) hall']

/-- C6: `_start_clone_mode` first drains the inbound buffer — it
succeeds when at most about 100 bytes are pending and aborts with the
serial-port error when the (nonempty) reads accumulate past the
101-byte hard limit, sending no magic at all — then makes up to 3
attempts, each sending the fixed 8-byte magic and reading exactly one
byte: it returns true right after the first ACK 0x06, having sent one
magic per attempt so far, and returns false when all 3 attempts get a
non-ACK byte. -/
theorem start_clone_mode_spec :
    BFT1_magic.length = 8 ∧
    (∀ chunks resp, (chunks.map List.length).sum ≤ 101 →
      ∀ j, j < 3 → (∀ i, i < j → ∃ b, resp i = some b ∧ b ≠ 6) → resp j = some 6 →
        start_clone_mode chunks resp = (j + 1, .ok true)) ∧
    (∀ chunks resp, (chunks.map List.length).sum ≤ 101 →
      (∀ i, i < 3 → ∃ b, resp i = some b ∧ b ≠ 6) →
      start_clone_mode chunks resp = (3, .ok false)) ∧
    (∀ chunks resp, (∀ c ∈ chunks, c ≠ []) → 101 < (chunks.map List.length).sum →
      start_clone_mode chunks resp = (0, .error .dirtySerial)) := by
  refine ⟨rfl, ?_, ?_, ?_⟩
  · intro chunks resp hclean j hj hpre hj6
    unfold start_clone_mode clean_buffer
    rw [clean_buffer_go_ok chunks 0 (by omega)]
    exact cloneGo_succeedsAt resp 3 0 j hj (by simpa using hpre) (by simpa using hj6)
  · intro chunks resp hclean hall
    unfold start_clone_mode clean_buffer
    rw [clean_buffer_go_ok chunks 0 (by omega)]
    exact cloneGo_allFail resp 3 0 (by simpa using hall)
  · intro chunks resp hne hover
    unfold start_clone_mode clean_buffer
    rw [clean_buffer_go_overflow chunks 0 hne (by omega) (by omega)]

/-- C6 witness: 3 pending bytes drain fine and the device ACKs on the
second attempt (2 magics sent); 102 pending bytes abort with the serial
error before any magic. -/
theorem start_clone_mode_spec_witness :
    start_clone_mode [[1, 2, 3], []] (fun k => if k = 1 then some 6 else some 0) =
      (2, .ok true) ∧
    start_clone_mode [List.replicate 102 0] (fun _ => some 6) =
      (0, .error .dirtySerial) := by
  constructor
  · exact start_clone_mode_spec.2.1 [[1, 2, 3], []]
      (fun k => if k = 1 then some 6 else some 0) (by simp) 1 (by omega)
      (fun i hi => ⟨0, by simp [show i = 0 from by omega], by omega⟩) (by simp)
  · exact start_clone_mode_spec.2.2.2 [List.replicate 102 0] (fun _ => some 6)
      (by simp) (by simp)

/-! ## Settings: volume and FM VFO -/

/-- Image offset of the `volume` byte in the settings record (0x150 base:
8 band-limit bytes, 10 unknown bytes, squelch, vox, timeout, flag byte,
scantype, channel, fmrange, alarm, voice, then volume at 0x16B). -/
def volumeOff : Nat := 0x16B

/-- `get_settings`'s volume handling: read the stored byte and clamp the
factory sentinel — any value above 7 (in particular stored 0xFF) is
presented as 7. -/
def volume_presented (img : Image) : Nat :=
  if byteAt img volumeOff > 7 then 7 else byteAt img volumeOff

/-- `set_settings`'s volume handling: `setattr(_settings, "volume",
value)` — the caller's value is stored verbatim, with no sentinel
re-inserted. -/
def set_volume (img : Image) (v : Nat) : Image := img.set volumeOff v

/-- C7: a stored volume of 0xFF (the factory sentinel) is presented as
7, a stored in-range value such as 3 is presented unchanged, and a
caller-provided value is written back verbatim. -/
theorem volume_spec :
    (∀ img, byteAt img volumeOff = 255 → volume_presented img = 7) ∧
    (∀ img, byteAt img volumeOff = 3 → volume_presented img = 3) ∧
    (∀ img v, img.length = 2048 → byteAt (set_volume img v) volumeOff = v) := by
  refine ⟨?_, ?_, ?_⟩
  · intro img h
    unfold volume_presented
    rw [h]
    decide
  · intro img h
    unfold volume_presented
    rw [h]
    decide
  · intro img v hlen
    unfold set_volume byteAt
    rw [List.getD_eq_getElem?_getD, List.getElem?_set_self (by rw [hlen]; norm_num [volumeOff])]
    rfl

/-- C7 witness: an all-0xFF image presents volume 7; after storing 5 the
byte reads back 5. -/
theorem volume_spec_witness :
    volume_presented (List.replicate 2048 255) = 7 ∧
    byteAt (set_volume (List.replicate 2048 255) 5) volumeOff = 5 := by
  constructor
  · refine volume_spec.1 (List.replicate 2048 255) ?_
    rw [byteAt, List.getD_eq_getElem?_getD, List.getElem?_replicate]
    norm_num [volumeOff]
  · exact volume_spec.2.2 (List.replicate 2048 255) 5 (List.length_replicate 2048 255)

/-- Byte swap of a (16-bit) value: `((value & 0x00FF) << 8) |
((value & 0xFF00) >> 8)` as plain arithmetic. -/
def byteswap16 (v : Nat) : Nat := v % 256 * 256 + v / 256 % 256

/-- The two historical FM VFO storage methods. -/
inductive FmVfoMode where
  | bwShift
  | direct
deriving DecidableEq, Repr

/-- `get_settings`'s FM VFO detection, on the big-endian `u16 fm_vfo`
field value. Frequencies are kept in tenths of MHz (the driver computes
`value / 10.0 + 65`, i.e. `(value + 650)` tenths): try the byte-swapped
reading first (valid when it is at most `108*10 - 650 = 430`, the
"storage method 3" discovered in 2022, remembered for write-back); else
try the direct reading (the original 2012 method); if neither is valid,
report no FM VFO setting at all rather than an error. -/
def fm_vfo_detect (v : Nat) : Option (FmVfoMode × Nat) :=
  if byteswap16 v ≤ 430 then some (.bwShift, byteswap16 v + 650)
  else if v ≤ 430 then some (.direct, v + 650)
  else none

/-- The FM VFO field value read from the image (`u16`, big-endian, at
0x16C). -/
def fm_vfo_raw (img : Image) : Nat := byteAt img 0x16C * 256 + byteAt img 0x16D

/-- C4 counterexample: the raw value 0x0145 does NOT decode via the
byte-swapped path — its byte-swapped reading is 0x4501 = 17665, far
outside [65,108] MHz — it decodes via the DIRECT path to 97.5 MHz
(975 tenths). -/
theorem fm_vfo_0x0145_not_byteswapped :
    byteswap16 0x0145 = 0x4501 ∧ ¬ byteswap16 0x0145 ≤ 430 ∧
    fm_vfo_detect 0x0145 = some (.direct, 975) := by decide

/-- C4 amended: raw 0x0145 decodes via the direct path to 97.5 MHz (its
byte-swapped interpretation lies outside [65,108]); it is the raw value
0x4501 that decodes via the byte-swapped path to 97.5 MHz; detection
tries the byte-swapped reading first and uses it whenever it is valid;
and a raw value invalid under both readings yields no FM VFO setting
rather than an error. -/
theorem fm_vfo_detect_spec :
    fm_vfo_detect 0x0145 = some (.direct, 975) ∧
    fm_vfo_detect 0x4501 = some (.bwShift, 975) ∧
    (∀ v, byteswap16 v ≤ 430 → fm_vfo_detect v = some (.bwShift, byteswap16 v + 650)) ∧
    (∀ v, ¬ byteswap16 v ≤ 430 → v ≤ 430 → fm_vfo_detect v = some (.direct, v + 650)) ∧
    (∀ v, ¬ byteswap16 v ≤ 430 → ¬ v ≤ 430 → fm_vfo_detect v = none) := by
  refine ⟨by decide, by decide, ?_, ?_, ?_⟩
  · intro v h
    unfold fm_vfo_detect
    rw [if_pos h]
  · intro v h1 h2
    unfold fm_vfo_detect
    rw [if_neg h1, if_pos h2]
  · intro v h1 h2
    unfold fm_vfo_detect
    rw [if_neg h1, if_neg h2]

/-- C4 amended witness: the three general branches at raw values 0x4501
(byte-swapped, 97.5 MHz), 0x0145 (direct, 97.5 MHz) and 0x4545
(unsupported). -/
theorem fm_vfo_detect_spec_witness :
    fm_vfo_detect 0x4501 = some (.bwShift, 975) ∧
    fm_vfo_detect 0x0145 = some (.direct, 975) ∧
    fm_vfo_detect 0x4545 = none := by
  refine ⟨?_, ?_, ?_⟩
  · exact fm_vfo_detect_spec.2.2.1 0x4501 (by decide)
  · exact fm_vfo_detect_spec.2.2.2.1 0x0145 (by decide) (by decide)
  · exact fm_vfo_detect_spec.2.2.2.2 0x4545 (by decide) (by decide)
